import Mathlib

/-
Verification of the keysort repository (a Go adapter implementing the
Schwartzian-transform pattern for sort.Interface).

The repository carries two versions of the package:
  * the basic variant (src/keysort.go): keySortable with fields
    wrapped / swaps / memo, operations Keysort, Key, Less, Len, Swap, prime;
  * the error-aware variant (src/unnamed/part_000): keySortable additionally
    holding an errors map, with operations Keysort, Key, Less, Len, Swap,
    memoize, ClearErrors, RetryFailed, allIndexes, erroredIndexes, Errors,
    and the PrimingError type.

The embedding below is a shallow, sequential (single-threaded) model:
  * Go maps (memo map[int]interface{}, errors map[int]error) are modelled as
    association lists with Go-map semantics: mlookup finds the entry for a
    key, minsert replaces/installs an entry, merase deletes an entry.
  * Go slices (swaps []int, the wrapped collection's element storage) are
    modelled as Lean lists; the simultaneous assignment
    a[i], a[j] = a[j], a[i] is listSwap.
  * A user collection implementing keysort.Interface is modelled the way
    every implementation in this repository implements it (ByIntKey,
    ByStringKey, ByHiddenValue): an element slice, a key function that reads
    the element currently stored at the queried index, and a pure LessVal
    comparator over keys.  In the error-aware variant the key function
    returns a value together with an optional error, exactly like
    Key(i) (interface{}, error) in Go.
  * Each state-mutating operation returns the new state explicitly; Key also
    returns the list of original indexes for which the user key function was
    invoked during the call (the invocation log), so that claims about
    "the user key function is (not) re-invoked" can be stated.
  * Out-of-range slice indexing panics in Go; the model makes it a no-op /
    default read.  All claims quantify over in-range indexes only.
-/

/-- Go-map lookup on an association list: the value stored for key k. -/
def mlookup {β : Type} : List (Nat × β) → Nat → Option β
  | [], _ => none
  | p :: t, k => if p.1 = k then some p.2 else mlookup t k

/-- Go-map delete: removes any entry for key k. -/
def merase {β : Type} : List (Nat × β) → Nat → List (Nat × β)
  | [], _ => []
  | p :: t, k => if p.1 = k then merase t k else p :: merase t k

/-- Go-map insert: m[k] = v (replacing any previous entry for k). -/
def minsert {β : Type} (m : List (Nat × β)) (k : Nat) (v : β) : List (Nat × β) :=
  (k, v) :: merase m k

theorem mlookup_merase_ne {β : Type} (m : List (Nat × β)) (k o : Nat) (h : o ≠ k) :
    mlookup (merase m k) o = mlookup m o := by
  induction m with
  | nil => rfl
  | cons p t ih =>
    by_cases hp : p.1 = k
    · simp only [merase, if_pos hp, mlookup, ih]
      rw [if_neg (by rw [hp]; exact fun he => h he.symm)]
    · simp only [merase, if_neg hp, mlookup, ih]

theorem mlookup_minsert_eq {β : Type} (m : List (Nat × β)) (k : Nat) (v : β) :
    mlookup (minsert m k v) k = some v := by
  simp [minsert, mlookup]

theorem mlookup_minsert_ne {β : Type} (m : List (Nat × β)) (k o : Nat) (v : β) (h : o ≠ k) :
    mlookup (minsert m k v) o = mlookup m o := by
  have hk : ((k, v) : Nat × β).1 = o → False := fun he => h he.symm
  show (if ((k, v) : Nat × β).1 = o then some ((k, v) : Nat × β).2
        else mlookup (merase m k) o) = mlookup m o
  rw [if_neg hk]
  exact mlookup_merase_ne m k o h

theorem merase_subset {β : Type} (m : List (Nat × β)) (k : Nat) (p : Nat × β)
    (h : p ∈ merase m k) : p ∈ m := by
  induction m with
  | nil => simp [merase] at h
  | cons q t ih =>
    by_cases hq : q.1 = k
    · simp only [merase, if_pos hq] at h
      exact List.mem_cons_of_mem q (ih h)
    · simp only [merase, if_neg hq, List.mem_cons] at h
      rcases h with h | h
      · exact h ▸ List.mem_cons_self q t
      · exact List.mem_cons_of_mem q (ih h)

theorem mem_minsert {β : Type} (m : List (Nat × β)) (k : Nat) (v : β) (p : Nat × β)
    (h : p ∈ minsert m k v) : p = (k, v) ∨ p ∈ m := by
  simp only [minsert, List.mem_cons] at h
  rcases h with h | h
  · exact Or.inl h
  · exact Or.inr (merase_subset m k p h)

theorem mlookup_mem {β : Type} (m : List (Nat × β)) (o : Nat) (v : β)
    (h : mlookup m o = some v) : (o, v) ∈ m := by
  induction m with
  | nil => simp [mlookup] at h
  | cons p t ih =>
    simp only [mlookup] at h
    by_cases hp : p.1 = o
    · rw [if_pos hp] at h
      cases p with
      | mk k' v' =>
        simp only at hp
        injection h with hv
        subst hp
        subst hv
        exact List.mem_cons_self _ _
    · rw [if_neg hp] at h
      exact List.mem_cons_of_mem p (ih h)

theorem mlookup_isSome_minsert {β : Type} (m : List (Nat × β)) (k o : Nat) (v : β)
    (h : (mlookup m o).isSome) : (mlookup (minsert m k v) o).isSome := by
  by_cases ho : o = k
  · rw [ho, mlookup_minsert_eq]; rfl
  · rw [mlookup_minsert_ne m k o v ho]; exact h

theorem mlookup_head {β : Type} (p : Nat × β) (t : List (Nat × β)) :
    mlookup (p :: t) p.1 = some p.2 := by
  simp [mlookup]

theorem ne_nil_of_mlookup {β : Type} (m : List (Nat × β)) (o : Nat) (v : β)
    (h : mlookup m o = some v) : m ≠ [] := by
  intro he
  rw [he] at h
  simp [mlookup] at h

/-- Go's simultaneous swap of two slice cells:
l[i], l[j] = l[j], l[i].  Out-of-range indexes panic in Go; the model
leaves the list unchanged (all claims restrict to in-range indexes). -/
def listSwap {β : Type} (l : List β) (i j : Nat) : List β :=
  match l[i]?, l[j]? with
  | some a, some b => (l.set i b).set j a
  | _, _ => l

theorem set_self_of_getElem? {β : Type} (l : List β) (i : Nat) (a : β)
    (h : l[i]? = some a) : l.set i a = l := by
  induction l generalizing i with
  | nil => simp at h
  | cons b t ih =>
    cases i with
    | zero => simp at h; simp [h]
    | succ k => simp at h ⊢; exact ih k h

theorem listSwap_same {β : Type} (l : List β) (i : Nat) : listSwap l i i = l := by
  unfold listSwap
  cases h : l[i]? with
  | none => simp
  | some a =>
    simp only [List.set_set]
    exact set_self_of_getElem? l i a h

theorem listSwap_comm {β : Type} (l : List β) (i j : Nat) : listSwap l i j = listSwap l j i := by
  by_cases hij : i = j
  · rw [hij]
  · unfold listSwap
    cases hi : l[i]? with
    | none => cases hj : l[j]? <;> simp
    | some a =>
      cases hj : l[j]? with
      | none => simp
      | some b => exact List.set_comm b a l hij

theorem listSwap_invol {β : Type} (l : List β) (i j : Nat)
    (hi : i < l.length) (hj : j < l.length) :
    listSwap (listSwap l i j) i j = l := by
  by_cases hij : i = j
  · rw [hij, listSwap_same, listSwap_same]
  · have hi' : l[i]? = some l[i] := List.getElem?_eq_getElem hi
    have hj' : l[j]? = some l[j] := List.getElem?_eq_getElem hj
    have h1 : listSwap l i j = (l.set i l[j]).set j l[i] := by
      unfold listSwap; rw [hi', hj']
    have h1i : ((l.set i l[j]).set j l[i])[i]? = some l[j] := by
      rw [List.getElem?_set_ne (Ne.symm hij)]
      exact List.getElem?_set_eq_of_lt _ hi
    have h1j : ((l.set i l[j]).set j l[i])[j]? = some l[i] :=
      List.getElem?_set_eq_of_lt _ (by simpa using hj)
    have h2 : listSwap ((l.set i l[j]).set j l[i]) i j
        = (((l.set i l[j]).set j l[i]).set i l[i]).set j l[j] := by
      unfold listSwap; rw [h1i, h1j]
    rw [h1, h2]
    have hcomm : (l.set i l[j]).set j l[i] = (l.set j l[i]).set i l[j] :=
      List.set_comm _ _ l hij
    rw [hcomm, List.set_set]
    rw [set_self_of_getElem? (l.set j l[i]) i l[i]
      (by rw [List.getElem?_set_ne (Ne.symm hij)]; exact hi')]
    rw [List.set_set]
    exact set_self_of_getElem? l j l[j] hj'

theorem getD_cons_set_perm {β : Type} (d : β) :
    ∀ (t : List β) (k : Nat) (a : β), k < t.length →
      List.Perm (t.getD k d :: t.set k a) (a :: t) := by
  intro t
  induction t with
  | nil => intro k a hk; simp at hk
  | cons b t' ih =>
    intro k a hk
    cases k with
    | zero =>
      simp only [List.getD_cons_zero, List.set_cons_zero]
      exact List.Perm.swap a b t'
    | succ m =>
      simp only [List.getD_cons_succ, List.set_cons_succ]
      have hm : m < t'.length := by simpa using hk
      exact List.Perm.trans (List.Perm.swap b (t'.getD m d) (t'.set m a))
        (List.Perm.trans (List.Perm.cons b (ih m a hm)) (List.Perm.swap a b t'))

theorem set_set_perm {β : Type} (d : β) :
    ∀ (l : List β) (i j : Nat), i < l.length → j < l.length →
      List.Perm ((l.set i (l.getD j d)).set j (l.getD i d)) l := by
  intro l
  induction l with
  | nil => intro i j hi _; simp at hi
  | cons c t ih =>
    intro i j hi hj
    cases i with
    | zero =>
      cases j with
      | zero => simp
      | succ m =>
        have hm : m < t.length := by simpa using hj
        simp only [List.getD_cons_succ, List.getD_cons_zero, List.set_cons_zero,
          List.set_cons_succ]
        exact getD_cons_set_perm d t m c hm
    | succ m =>
      cases j with
      | zero =>
        have hm : m < t.length := by simpa using hi
        simp only [List.getD_cons_succ, List.getD_cons_zero, List.set_cons_succ,
          List.set_cons_zero]
        exact getD_cons_set_perm d t m c hm
      | succ k =>
        have hm : m < t.length := by simpa using hi
        have hk : k < t.length := by simpa using hj
        simp only [List.getD_cons_succ, List.set_cons_succ]
        exact List.Perm.cons c (ih m k hm hk)

theorem listSwap_perm {β : Type} (l : List β) (i j : Nat) :
    List.Perm (listSwap l i j) l := by
  unfold listSwap
  cases hi : l[i]? with
  | none => exact List.Perm.refl l
  | some a =>
    cases hj : l[j]? with
    | none => exact List.Perm.refl l
    | some b =>
      have hi' : i < l.length := by
        rcases List.getElem?_eq_some.mp hi with ⟨hl, _⟩; exact hl
      have hj' : j < l.length := by
        rcases List.getElem?_eq_some.mp hj with ⟨hl, _⟩; exact hl
      have ha : l.getD i a = a := by
        rw [List.getD_eq_getElem?_getD, hi]; rfl
      have hb : l.getD j a = b := by
        rw [List.getD_eq_getElem?_getD, hj]; rfl
      have h := set_set_perm a l i j hi' hj'
      rw [ha, hb] at h
      exact h

/-- A user collection implementing keysort.Interface, modelled the way every
implementation in the repository does (ByIntKey, ByStringKey, ByHiddenValue,
ByIntKeyCounted): an element slice, a key function reading the element
currently stored at the queried index (Key(i) returns keyf applied to
elems[i] and a nil error), and a pure LessVal comparator over keys. -/
structure Collection (α κ : Type) where
  elems : List α
  keyf : α → κ
  lessVal : κ → κ → Bool

namespace KeysortBasic

/-- The keySortable struct of the basic variant (src/keysort.go): the wrapped
collection, the swaps slice and the memo map.  The mutex only matters for
concurrent executions and has no effect in this sequential model. -/
structure keySortable (α κ : Type) where
  wrapped : Collection α κ
  swaps : List Nat
  memo : List (Nat × κ)

/-- Keysort(wrapped): swaps is the identity permutation [0, ..., n-1] and the
memo map starts empty. -/
def Keysort {α κ : Type} (wrapped : Collection α κ) : keySortable α κ :=
  { wrapped := wrapped
    swaps := List.range wrapped.elems.length
    memo := [] }

/-- Len() delegates to wrapped.Len(). -/
def Len {α κ : Type} (ks : keySortable α κ) : Nat :=
  ks.wrapped.elems.length

/-- Key(i): looks up originalIndex := ks.swaps[i]; if the memo map has no
entry for it, invokes wrapped.Key(originalIndex) — which reads the element
currently stored at index originalIndex — and stores the result at
originalIndex; returns ks.memo[ks.swaps[i]].  Besides the value, the model
returns the updated state and the list of original indexes for which the
user key function was invoked during this call.  The error result is nil for
every collection in the repository and is dropped by Less, so it is omitted. -/
def Key {α κ : Type} [Inhabited α] [Inhabited κ] (ks : keySortable α κ) (i : Nat) :
    κ × keySortable α κ × List Nat :=
  let originalIndex := ks.swaps.getD i 0
  match mlookup ks.memo originalIndex with
  | some _ => ((mlookup ks.memo (ks.swaps.getD i 0)).getD default, ks, [])
  | none =>
    let value := ks.wrapped.keyf (ks.wrapped.elems.getD originalIndex default)
    let ks1 : keySortable α κ := { ks with memo := minsert ks.memo originalIndex value }
    ((mlookup ks1.memo (ks1.swaps.getD i 0)).getD default, ks1, [originalIndex])

/-- Less(i, j): resolves Key(i) and Key(j) (threading the memo state), then
delegates to wrapped.LessVal on the two key values. -/
def Less {α κ : Type} [Inhabited α] [Inhabited κ] (ks : keySortable α κ) (i j : Nat) :
    Bool × keySortable α κ × List Nat :=
  let ri := Key ks i
  let rj := Key ri.2.1 j
  (rj.2.1.wrapped.lessVal ri.1 rj.1, rj.2.1, ri.2.2 ++ rj.2.2)

/-- Swap(i, j): swaps ks.swaps[i] with ks.swaps[j] and forwards the swap to
the wrapped collection's element slice. -/
def Swap {α κ : Type} (ks : keySortable α κ) (i j : Nat) : keySortable α κ :=
  { ks with
    swaps := listSwap ks.swaps i j
    wrapped := { ks.wrapped with elems := listSwap ks.wrapped.elems i j } }

/-- One call of the adapter surface (sort.Interface side: Less/Swap, plus a
bare Key resolution). -/
inductive Op where
  | key (i : Nat)
  | less (i j : Nat)
  | swap (i j : Nat)

/-- Applies one adapter call, returning the new state and the list of
original indexes for which the user key function was invoked. -/
def applyOp {α κ : Type} [Inhabited α] [Inhabited κ] (ks : keySortable α κ) :
    Op → keySortable α κ × List Nat
  | .key i => ((Key ks i).2.1, (Key ks i).2.2)
  | .less i j => ((Less ks i j).2.1, (Less ks i j).2.2)
  | .swap i j => (Swap ks i j, [])

/-- Applies a sequence of adapter calls, concatenating the invocation logs. -/
def runOps {α κ : Type} [Inhabited α] [Inhabited κ] (ks : keySortable α κ) :
    List Op → keySortable α κ × List Nat
  | [] => (ks, [])
  | op :: t =>
    let r := applyOp ks op
    let r2 := runOps r.1 t
    (r2.1, r.2 ++ r2.2)

end KeysortBasic

theorem Key_cached {α κ : Type} [Inhabited α] [Inhabited κ]
    (ks : KeysortBasic.keySortable α κ) (i : Nat) (v : κ)
    (h : mlookup ks.memo (ks.swaps.getD i 0) = some v) :
    KeysortBasic.Key ks i = (v, ks, []) := by
  unfold KeysortBasic.Key
  simp only [h]
  rfl

theorem Key_uncached {α κ : Type} [Inhabited α] [Inhabited κ]
    (ks : KeysortBasic.keySortable α κ) (i : Nat)
    (h : mlookup ks.memo (ks.swaps.getD i 0) = none) :
    KeysortBasic.Key ks i =
      (ks.wrapped.keyf (ks.wrapped.elems.getD (ks.swaps.getD i 0) default),
        { ks with memo := minsert ks.memo (ks.swaps.getD i 0) (ks.wrapped.keyf (ks.wrapped.elems.getD (ks.swaps.getD i 0) default)) },
        [ks.swaps.getD i 0]) := by
  unfold KeysortBasic.Key
  simp only [h, mlookup_minsert_eq]
  rfl

theorem Key_persist_avoid {α κ : Type} [Inhabited α] [Inhabited κ]
    (ks : KeysortBasic.keySortable α κ) (i o : Nat) (v : κ)
    (h : mlookup ks.memo o = some v) :
    mlookup (KeysortBasic.Key ks i).2.1.memo o = some v ∧
      o ∉ (KeysortBasic.Key ks i).2.2 := by
  cases hm : mlookup ks.memo (ks.swaps.getD i 0) with
  | some w =>
    rw [Key_cached ks i w hm]
    exact ⟨h, by simp⟩
  | none =>
    have ho : o ≠ ks.swaps.getD i 0 := by
      intro he; rw [he, hm] at h; cases h
    rw [Key_uncached ks i hm]
    constructor
    · exact (mlookup_minsert_ne ks.memo (ks.swaps.getD i 0) o _ ho).trans h
    · simpa using ho

theorem Less_persist_avoid {α κ : Type} [Inhabited α] [Inhabited κ]
    (ks : KeysortBasic.keySortable α κ) (i j o : Nat) (v : κ)
    (h : mlookup ks.memo o = some v) :
    mlookup (KeysortBasic.Less ks i j).2.1.memo o = some v ∧
      o ∉ (KeysortBasic.Less ks i j).2.2 := by
  unfold KeysortBasic.Less
  have h1 := Key_persist_avoid ks i o v h
  have h2 := Key_persist_avoid (KeysortBasic.Key ks i).2.1 j o v h1.1
  refine ⟨h2.1, ?_⟩
  simp only [List.mem_append]
  intro hc
  rcases hc with hc | hc
  · exact h1.2 hc
  · exact h2.2 hc

theorem runOps_persist_avoid {α κ : Type} [Inhabited α] [Inhabited κ] (o : Nat) (v : κ) :
    ∀ (ops : List KeysortBasic.Op) (ks : KeysortBasic.keySortable α κ),
      mlookup ks.memo o = some v →
      mlookup (KeysortBasic.runOps ks ops).1.memo o = some v ∧
        o ∉ (KeysortBasic.runOps ks ops).2 := by
  intro ops
  induction ops with
  | nil => intro ks h; exact ⟨h, by simp [KeysortBasic.runOps]⟩
  | cons op t ih =>
    intro ks h
    have hop : mlookup (KeysortBasic.applyOp ks op).1.memo o = some v ∧
        o ∉ (KeysortBasic.applyOp ks op).2 := by
      cases op with
      | key i => exact Key_persist_avoid ks i o v h
      | less i j => exact Less_persist_avoid ks i j o v h
      | swap i j => exact ⟨h, by simp [KeysortBasic.applyOp]⟩
    have ht := ih (KeysortBasic.applyOp ks op).1 hop.1
    refine ⟨ht.1, ?_⟩
    simp only [KeysortBasic.runOps, List.mem_append]
    intro hc
    rcases hc with hc | hc
    · exact hop.2 hc
    · exact ht.2 hc

/-- A user collection for the error-aware variant: as Collection, but the key
function returns a value together with an optional error, mirroring
Key(i) (interface{}, error).  On error the value component is still produced
(Go would typically return a zero value) and is cached as a sentinel. -/
structure CollectionE (α κ : Type) where
  elems : List α
  keyf : α → κ × Option String
  lessVal : κ → κ → Bool

namespace KeysortErr

/-- The keySortable struct of the error-aware variant (src/unnamed/part_000):
wrapped collection, swaps slice, memo map and errors map. -/
structure keySortable (α κ : Type) where
  wrapped : CollectionE α κ
  swaps : List Nat
  memo : List (Nat × κ)
  errors : List (Nat × String)

/-- Keysort(wrapped): identity permutation, empty memo map, empty errors map. -/
def Keysort {α κ : Type} (wrapped : CollectionE α κ) : keySortable α κ :=
  { wrapped := wrapped
    swaps := List.range wrapped.elems.length
    memo := []
    errors := [] }

/-- Len() delegates to wrapped.Len(). -/
def Len {α κ : Type} (ks : keySortable α κ) : Nat :=
  ks.wrapped.elems.length

/-- Key(i) of the error-aware variant: as in the basic variant, but when the
user key function is invoked the value is always written to the memo map
("Whatever happened, write the value down."), and the errors map entry for
originalIndex is set on failure and deleted on success. -/
def Key {α κ : Type} [Inhabited α] [Inhabited κ] (ks : keySortable α κ) (i : Nat) :
    κ × keySortable α κ × List Nat :=
  let originalIndex := ks.swaps.getD i 0
  match mlookup ks.memo originalIndex with
  | some _ => ((mlookup ks.memo (ks.swaps.getD i 0)).getD default, ks, [])
  | none =>
    let r := ks.wrapped.keyf (ks.wrapped.elems.getD originalIndex default)
    let memo1 := minsert ks.memo originalIndex r.1
    let errors1 := match r.2 with
      | some e => minsert ks.errors originalIndex e
      | none => merase ks.errors originalIndex
    let ks1 : keySortable α κ := { ks with memo := memo1, errors := errors1 }
    ((mlookup ks1.memo (ks1.swaps.getD i 0)).getD default, ks1, [originalIndex])

/-- PrimingError carries the errors map (original index paired with the error
message of its failed Key call). -/
structure PrimingError where
  Errors : List (Nat × String)
deriving DecidableEq

/-- Errors(): nil when the errors map is empty, otherwise a PrimingError
holding the errors map. -/
def Errors {α κ : Type} (ks : keySortable α κ) : Option PrimingError :=
  if ks.errors.length = 0 then none else some { Errors := ks.errors }

/-- Less(i, j) of the error-aware variant: resolves Key(i) and Key(j), then
returns false whenever Errors() is non-nil on the resulting state; otherwise
delegates to wrapped.LessVal on the two key values. -/
def Less {α κ : Type} [Inhabited α] [Inhabited κ] (ks : keySortable α κ) (i j : Nat) :
    Bool × keySortable α κ × List Nat :=
  let ri := Key ks i
  let rj := Key ri.2.1 j
  let ks2 := rj.2.1
  if (Errors ks2).isSome then (false, ks2, ri.2.2 ++ rj.2.2)
  else (ks2.wrapped.lessVal ri.1 rj.1, ks2, ri.2.2 ++ rj.2.2)

/-- Swap(i, j): swaps ks.swaps[i] with ks.swaps[j] and forwards the swap to
the wrapped collection's element slice. -/
def Swap {α κ : Type} (ks : keySortable α κ) (i j : Nat) : keySortable α κ :=
  { ks with
    swaps := listSwap ks.swaps i j
    wrapped := { ks.wrapped with elems := listSwap ks.wrapped.elems i j } }

/-- memoize(parallelism, genIndexes): the worker pool calls ks.Key(i) once for
every index produced by the generator.  In this sequential model the indexes
are processed in order; the worker count (parallelism, defaulted to
GOMAXPROCS when < 1) does not change which indexes are processed, so it is
carried but unused.  Returns the final state and the concatenated invocation
log. -/
def memoize {α κ : Type} [Inhabited α] [Inhabited κ] (ks : keySortable α κ)
    (parallelism : Int) (idxs : List Nat) : keySortable α κ × List Nat :=
  match idxs with
  | [] => (ks, [])
  | i :: t =>
    let r := Key ks i
    let r2 := memoize r.2.1 parallelism t
    (r2.1, r.2.2 ++ r2.2)

/-- allIndexes: generates every index 0, ..., Len()-1. -/
def allIndexes {α κ : Type} (ks : keySortable α κ) : List Nat :=
  List.range (Len ks)

/-- erroredIndexes: the Go code copies the keys of ks.errors into a slice
erroredIndices and then sends i for i := range erroredIndices — that is, it
sends the slice positions 0, ..., len(erroredIndices)-1, not the collected
original indexes.  Faithfully: the generated indexes are
0, ..., len(ks.errors)-1. -/
def erroredIndexes {α κ : Type} (ks : keySortable α κ) : List Nat :=
  List.range ks.errors.length

/-- PrimedKeysort(wrapped, parallelism): Keysort then memoize over allIndexes. -/
def PrimedKeysort {α κ : Type} [Inhabited α] [Inhabited κ] (wrapped : CollectionE α κ)
    (parallelism : Int) : keySortable α κ :=
  (memoize (Keysort wrapped) parallelism (allIndexes (Keysort wrapped))).1

/-- ClearErrors(): deletes every entry of the errors map. -/
def ClearErrors {α κ : Type} (ks : keySortable α κ) : keySortable α κ :=
  { ks with errors := [] }

/-- RetryFailed(parallelism): calls ClearErrors first, then memoize with the
erroredIndexes generator — which runs after the errors map was cleared
(ks.erroredIndexes reads ks.errors when memoize invokes it). -/
def RetryFailed {α κ : Type} [Inhabited α] [Inhabited κ] (ks : keySortable α κ)
    (parallelism : Int) : keySortable α κ × List Nat :=
  let ks1 := ClearErrors ks
  memoize ks1 parallelism (erroredIndexes ks1)

/-- One call of the error-aware adapter surface. -/
inductive Op where
  | key (i : Nat)
  | less (i j : Nat)
  | swap (i j : Nat)
  | clearErrors
  | retryFailed (p : Int)
  | prime (p : Int)

/-- Applies one call, returning the new state and the invocation log. -/
def applyOp {α κ : Type} [Inhabited α] [Inhabited κ] (ks : keySortable α κ) :
    Op → keySortable α κ × List Nat
  | .key i => ((Key ks i).2.1, (Key ks i).2.2)
  | .less i j => ((Less ks i j).2.1, (Less ks i j).2.2)
  | .swap i j => (Swap ks i j, [])
  | .clearErrors => (ClearErrors ks, [])
  | .retryFailed p => RetryFailed ks p
  | .prime p => memoize ks p (allIndexes ks)

/-- Applies a sequence of calls, concatenating the invocation logs. -/
def runOps {α κ : Type} [Inhabited α] [Inhabited κ] (ks : keySortable α κ) :
    List Op → keySortable α κ × List Nat
  | [] => (ks, [])
  | op :: t =>
    let r := applyOp ks op
    let r2 := runOps r.1 t
    (r2.1, r.2 ++ r2.2)

/-- The sort-facing subset of the surface: Key, Less and Swap — the calls an
external sort algorithm issues, as opposed to the explicit error-recovery
calls ClearErrors / RetryFailed (and priming). -/
def sortOp : Op → Bool
  | .key _ => true
  | .less _ _ => true
  | .swap _ _ => true
  | .clearErrors => false
  | .retryFailed _ => false
  | .prime _ => false

end KeysortErr

theorem KeyE_cached {α κ : Type} [Inhabited α] [Inhabited κ]
    (ks : KeysortErr.keySortable α κ) (i : Nat) (v : κ)
    (h : mlookup ks.memo (ks.swaps.getD i 0) = some v) :
    KeysortErr.Key ks i = (v, ks, []) := by
  unfold KeysortErr.Key
  simp only [h]
  rfl

theorem KeyE_uncached_ok {α κ : Type} [Inhabited α] [Inhabited κ]
    (ks : KeysortErr.keySortable α κ) (i : Nat)
    (h1 : mlookup ks.memo (ks.swaps.getD i 0) = none)
    (h2 : (ks.wrapped.keyf (ks.wrapped.elems.getD (ks.swaps.getD i 0) default)).2 = none) :
    KeysortErr.Key ks i =
      ((ks.wrapped.keyf (ks.wrapped.elems.getD (ks.swaps.getD i 0) default)).1,
        { ks with memo := minsert ks.memo (ks.swaps.getD i 0) (ks.wrapped.keyf (ks.wrapped.elems.getD (ks.swaps.getD i 0) default)).1, errors := merase ks.errors (ks.swaps.getD i 0) },
        [ks.swaps.getD i 0]) := by
  unfold KeysortErr.Key
  simp only [h1, h2, mlookup_minsert_eq]
  rfl

theorem KeyE_uncached_err {α κ : Type} [Inhabited α] [Inhabited κ]
    (ks : KeysortErr.keySortable α κ) (i : Nat) (e : String)
    (h1 : mlookup ks.memo (ks.swaps.getD i 0) = none)
    (h2 : (ks.wrapped.keyf (ks.wrapped.elems.getD (ks.swaps.getD i 0) default)).2 = some e) :
    KeysortErr.Key ks i =
      ((ks.wrapped.keyf (ks.wrapped.elems.getD (ks.swaps.getD i 0) default)).1,
        { ks with memo := minsert ks.memo (ks.swaps.getD i 0) (ks.wrapped.keyf (ks.wrapped.elems.getD (ks.swaps.getD i 0) default)).1, errors := minsert ks.errors (ks.swaps.getD i 0) e },
        [ks.swaps.getD i 0]) := by
  unfold KeysortErr.Key
  simp only [h1, h2, mlookup_minsert_eq]
  rfl

theorem KeyE_persist_avoid {α κ : Type} [Inhabited α] [Inhabited κ]
    (ks : KeysortErr.keySortable α κ) (i o : Nat) (v : κ)
    (h : mlookup ks.memo o = some v) :
    mlookup (KeysortErr.Key ks i).2.1.memo o = some v ∧
      o ∉ (KeysortErr.Key ks i).2.2 := by
  cases hm : mlookup ks.memo (ks.swaps.getD i 0) with
  | some w =>
    rw [KeyE_cached ks i w hm]
    exact ⟨h, by simp⟩
  | none =>
    have ho : o ≠ ks.swaps.getD i 0 := by
      intro he; rw [he, hm] at h; cases h
    cases h2 : (ks.wrapped.keyf (ks.wrapped.elems.getD (ks.swaps.getD i 0) default)).2 with
    | none =>
      rw [KeyE_uncached_ok ks i hm h2]
      exact ⟨(mlookup_minsert_ne ks.memo (ks.swaps.getD i 0) o _ ho).trans h, by simpa using ho⟩
    | some e =>
      rw [KeyE_uncached_err ks i e hm h2]
      exact ⟨(mlookup_minsert_ne ks.memo (ks.swaps.getD i 0) o _ ho).trans h, by simpa using ho⟩

/-- The reachable-state invariant of the error-aware variant: every original
index holding a recorded error also holds a memo entry (errors are only ever
recorded together with the sentinel memo write in Key). -/
def ErrInv {α κ : Type} (ks : KeysortErr.keySortable α κ) : Prop :=
  ∀ p ∈ ks.errors, (mlookup ks.memo p.1).isSome

theorem KeyE_errinv {α κ : Type} [Inhabited α] [Inhabited κ]
    (ks : KeysortErr.keySortable α κ) (i : Nat) (hinv : ErrInv ks) :
    ErrInv (KeysortErr.Key ks i).2.1 := by
  cases hm : mlookup ks.memo (ks.swaps.getD i 0) with
  | some w =>
    rw [KeyE_cached ks i w hm]
    exact hinv
  | none =>
    cases h2 : (ks.wrapped.keyf (ks.wrapped.elems.getD (ks.swaps.getD i 0) default)).2 with
    | none =>
      rw [KeyE_uncached_ok ks i hm h2]
      intro p hp
      exact mlookup_isSome_minsert _ _ _ _ (hinv p (merase_subset _ _ _ hp))
    | some e =>
      rw [KeyE_uncached_err ks i e hm h2]
      intro p hp
      rcases mem_minsert _ _ _ _ hp with hp | hp
      · rw [hp]
        simp only [mlookup_minsert_eq]
        rfl
      · exact mlookup_isSome_minsert _ _ _ _ (hinv p hp)

theorem KeyE_errors_persist {α κ : Type} [Inhabited α] [Inhabited κ]
    (ks : KeysortErr.keySortable α κ) (i o : Nat) (e : String) (hinv : ErrInv ks)
    (h : mlookup ks.errors o = some e) :
    mlookup (KeysortErr.Key ks i).2.1.errors o = some e := by
  cases hm : mlookup ks.memo (ks.swaps.getD i 0) with
  | some w =>
    rw [KeyE_cached ks i w hm]
    exact h
  | none =>
    have hmem : (o, e) ∈ ks.errors := mlookup_mem _ _ _ h
    have hsome : (mlookup ks.memo o).isSome := hinv (o, e) hmem
    have ho : o ≠ ks.swaps.getD i 0 := by
      intro he; rw [he, hm] at hsome; cases hsome
    cases h2 : (ks.wrapped.keyf (ks.wrapped.elems.getD (ks.swaps.getD i 0) default)).2 with
    | none =>
      rw [KeyE_uncached_ok ks i hm h2]
      exact (mlookup_merase_ne ks.errors (ks.swaps.getD i 0) o ho).trans h
    | some e' =>
      rw [KeyE_uncached_err ks i e' hm h2]
      exact (mlookup_minsert_ne ks.errors (ks.swaps.getD i 0) o e' ho).trans h

theorem KeyE_errors_nonempty {α κ : Type} [Inhabited α] [Inhabited κ]
    (ks : KeysortErr.keySortable α κ) (i : Nat) (hinv : ErrInv ks)
    (h : ks.errors ≠ []) : (KeysortErr.Key ks i).2.1.errors ≠ [] := by
  cases he : ks.errors with
  | nil => exact absurd he h
  | cons p t =>
    have hl : mlookup ks.errors p.1 = some p.2 := by rw [he]; exact mlookup_head p t
    exact ne_nil_of_mlookup _ _ _ (KeyE_errors_persist ks i p.1 p.2 hinv hl)

theorem LessE_state {α κ : Type} [Inhabited α] [Inhabited κ]
    (ks : KeysortErr.keySortable α κ) (i j : Nat) :
    (KeysortErr.Less ks i j).2.1 =
      (KeysortErr.Key (KeysortErr.Key ks i).2.1 j).2.1 := by
  unfold KeysortErr.Less
  by_cases h : (KeysortErr.Errors (KeysortErr.Key (KeysortErr.Key ks i).2.1 j).2.1).isSome
  · rw [if_pos h]
  · rw [if_neg h]

theorem LessE_false_of_errors {α κ : Type} [Inhabited α] [Inhabited κ]
    (ks : KeysortErr.keySortable α κ) (i j : Nat)
    (h : (KeysortErr.Less ks i j).2.1.errors ≠ []) :
    (KeysortErr.Less ks i j).1 = false := by
  have h2 : (KeysortErr.Less ks i j).2.1 =
      (KeysortErr.Key (KeysortErr.Key ks i).2.1 j).2.1 := LessE_state ks i j
  rw [h2] at h
  have hs : (KeysortErr.Errors (KeysortErr.Key (KeysortErr.Key ks i).2.1 j).2.1).isSome := by
    unfold KeysortErr.Errors
    rw [if_neg (by simpa [List.length_eq_zero] using h)]
    rfl
  unfold KeysortErr.Less
  simp only [hs, if_true]

theorem LessE_log {α κ : Type} [Inhabited α] [Inhabited κ]
    (ks : KeysortErr.keySortable α κ) (i j : Nat) :
    (KeysortErr.Less ks i j).2.2 =
      (KeysortErr.Key ks i).2.2 ++ (KeysortErr.Key (KeysortErr.Key ks i).2.1 j).2.2 := by
  unfold KeysortErr.Less
  by_cases h : (KeysortErr.Errors (KeysortErr.Key (KeysortErr.Key ks i).2.1 j).2.1).isSome
  · rw [if_pos h]
  · rw [if_neg h]

theorem LessE_errinv {α κ : Type} [Inhabited α] [Inhabited κ]
    (ks : KeysortErr.keySortable α κ) (i j : Nat) (hinv : ErrInv ks) :
    ErrInv (KeysortErr.Less ks i j).2.1 := by
  rw [LessE_state]
  exact KeyE_errinv _ _ (KeyE_errinv _ _ hinv)

theorem LessE_errors_nonempty {α κ : Type} [Inhabited α] [Inhabited κ]
    (ks : KeysortErr.keySortable α κ) (i j : Nat) (hinv : ErrInv ks)
    (h : ks.errors ≠ []) : (KeysortErr.Less ks i j).2.1.errors ≠ [] := by
  rw [LessE_state]
  exact KeyE_errors_nonempty _ _ (KeyE_errinv _ _ hinv)
    (KeyE_errors_nonempty _ _ hinv h)

theorem LessE_persist_avoid {α κ : Type} [Inhabited α] [Inhabited κ]
    (ks : KeysortErr.keySortable α κ) (i j o : Nat) (v : κ)
    (h : mlookup ks.memo o = some v) :
    mlookup (KeysortErr.Less ks i j).2.1.memo o = some v ∧
      o ∉ (KeysortErr.Less ks i j).2.2 := by
  have h1 := KeyE_persist_avoid ks i o v h
  have h2 := KeyE_persist_avoid (KeysortErr.Key ks i).2.1 j o v h1.1
  rw [LessE_state, LessE_log]
  refine ⟨h2.1, ?_⟩
  simp only [List.mem_append]
  intro hc
  rcases hc with hc | hc
  · exact h1.2 hc
  · exact h2.2 hc

theorem SwapE_errinv {α κ : Type} (ks : KeysortErr.keySortable α κ) (i j : Nat)
    (hinv : ErrInv ks) : ErrInv (KeysortErr.Swap ks i j) :=
  hinv

theorem memoize_persist_avoid {α κ : Type} [Inhabited α] [Inhabited κ] (o : Nat) (v : κ) :
    ∀ (idxs : List Nat) (ks : KeysortErr.keySortable α κ) (p : Int),
      mlookup ks.memo o = some v →
      mlookup (KeysortErr.memoize ks p idxs).1.memo o = some v ∧
        o ∉ (KeysortErr.memoize ks p idxs).2 := by
  intro idxs
  induction idxs with
  | nil => intro ks p h; exact ⟨h, by simp [KeysortErr.memoize]⟩
  | cons i t ih =>
    intro ks p h
    have h1 := KeyE_persist_avoid ks i o v h
    have ht := ih (KeysortErr.Key ks i).2.1 p h1.1
    refine ⟨ht.1, ?_⟩
    simp only [KeysortErr.memoize, List.mem_append]
    intro hc
    rcases hc with hc | hc
    · exact h1.2 hc
    · exact ht.2 hc

theorem memoize_cached_all {α κ : Type} [Inhabited α] [Inhabited κ] :
    ∀ (idxs : List Nat) (ks : KeysortErr.keySortable α κ) (p : Int),
      (∀ i ∈ idxs, (mlookup ks.memo (ks.swaps.getD i 0)).isSome) →
      KeysortErr.memoize ks p idxs = (ks, []) := by
  intro idxs
  induction idxs with
  | nil => intro ks p _; rfl
  | cons i t ih =>
    intro ks p h
    have hi := h i (List.mem_cons_self i t)
    cases hm : mlookup ks.memo (ks.swaps.getD i 0) with
    | none => rw [hm] at hi; cases hi
    | some v =>
      have hkey := KeyE_cached ks i v hm
      simp only [KeysortErr.memoize, hkey]
      have ht := ih ks p (fun x hx => h x (List.mem_cons_of_mem i hx))
      simp only [ht]
      rfl

theorem applyOpE_persist_avoid {α κ : Type} [Inhabited α] [Inhabited κ]
    (ks : KeysortErr.keySortable α κ) (op : KeysortErr.Op) (o : Nat) (v : κ)
    (h : mlookup ks.memo o = some v) :
    mlookup (KeysortErr.applyOp ks op).1.memo o = some v ∧
      o ∉ (KeysortErr.applyOp ks op).2 := by
  cases op with
  | key i => exact KeyE_persist_avoid ks i o v h
  | less i j => exact LessE_persist_avoid ks i j o v h
  | swap i j => exact ⟨h, by simp [KeysortErr.applyOp]⟩
  | clearErrors => exact ⟨h, by simp [KeysortErr.applyOp]⟩
  | retryFailed p =>
    exact memoize_persist_avoid o v _ (KeysortErr.ClearErrors ks) p h
  | prime p =>
    exact memoize_persist_avoid o v _ ks p h

theorem runOpsE_persist_avoid {α κ : Type} [Inhabited α] [Inhabited κ] (o : Nat) (v : κ) :
    ∀ (ops : List KeysortErr.Op) (ks : KeysortErr.keySortable α κ),
      mlookup ks.memo o = some v →
      mlookup (KeysortErr.runOps ks ops).1.memo o = some v ∧
        o ∉ (KeysortErr.runOps ks ops).2 := by
  intro ops
  induction ops with
  | nil => intro ks h; exact ⟨h, by simp [KeysortErr.runOps]⟩
  | cons op t ih =>
    intro ks h
    have hop := applyOpE_persist_avoid ks op o v h
    have ht := ih (KeysortErr.applyOp ks op).1 hop.1
    refine ⟨ht.1, ?_⟩
    simp only [KeysortErr.runOps, List.mem_append]
    intro hc
    rcases hc with hc | hc
    · exact hop.2 hc
    · exact ht.2 hc

theorem applyOpE_sort_preserves {α κ : Type} [Inhabited α] [Inhabited κ]
    (ks : KeysortErr.keySortable α κ) (op : KeysortErr.Op)
    (hop : KeysortErr.sortOp op = true) (hinv : ErrInv ks) (h : ks.errors ≠ []) :
    ErrInv (KeysortErr.applyOp ks op).1 ∧ (KeysortErr.applyOp ks op).1.errors ≠ [] := by
  cases op with
  | key i => exact ⟨KeyE_errinv ks i hinv, KeyE_errors_nonempty ks i hinv h⟩
  | less i j => exact ⟨LessE_errinv ks i j hinv, LessE_errors_nonempty ks i j hinv h⟩
  | swap i j => exact ⟨SwapE_errinv ks i j hinv, h⟩
  | clearErrors => cases hop
  | retryFailed p => cases hop
  | prime p => cases hop

theorem runOpsE_sort_preserves {α κ : Type} [Inhabited α] [Inhabited κ] :
    ∀ (ops : List KeysortErr.Op) (ks : KeysortErr.keySortable α κ),
      (∀ op ∈ ops, KeysortErr.sortOp op = true) → ErrInv ks → ks.errors ≠ [] →
      ErrInv (KeysortErr.runOps ks ops).1 ∧ (KeysortErr.runOps ks ops).1.errors ≠ [] := by
  intro ops
  induction ops with
  | nil => intro ks _ hinv h; exact ⟨hinv, h⟩
  | cons op t ih =>
    intro ks hops hinv h
    have hop := applyOpE_sort_preserves ks op (hops op (List.mem_cons_self op t)) hinv h
    exact ih (KeysortErr.applyOp ks op).1 (fun x hx => hops x (List.mem_cons_of_mem op hx))
      hop.1 hop.2

/-- A deterministic comparison-sort program: the external sort algorithm seen
as a decision tree over the adapter surface.  It issues Swap and Less calls;
after a Less call it continues with the branch selected by the returned
Bool.  Any deterministic algorithm that interacts with a collection only
through Len/Swap/Less (the contract assumed in the spec) is such a tree for
each fixed input size. -/
inductive SortProg where
  | done : SortProg
  | swap (i j : Nat) (rest : SortProg) : SortProg
  | cmp (i j : Nat) (ifLess ifNot : SortProg) : SortProg

/-- Runs a sort program against the basic-variant adapter, threading the
adapter state through its Swap and Less calls. -/
def runSort {α κ : Type} [Inhabited α] [Inhabited κ] :
    SortProg → KeysortBasic.keySortable α κ → KeysortBasic.keySortable α κ
  | .done, ks => ks
  | .swap i j r, ks => runSort r (KeysortBasic.Swap ks i j)
  | .cmp i j a b, ks =>
    match KeysortBasic.Less ks i j with
    | (true, ks1, _) => runSort a ks1
    | (false, ks1, _) => runSort b ks1

/-- Runs the same sort program directly on the collection with the
unmemoized comparator: Less(i, j) compares keyf of the elements currently at
positions i and j (the naive comparator of the README), Swap swaps the
elements. -/
def runSortDirect {α κ : Type} [Inhabited α] (keyf : α → κ) (lessVal : κ → κ → Bool) :
    SortProg → List α → List α
  | .done, l => l
  | .swap i j r, l => runSortDirect keyf lessVal r (listSwap l i j)
  | .cmp i j a b, l =>
    match lessVal (keyf (l.getD i default)) (keyf (l.getD j default)) with
    | true => runSortDirect keyf lessVal a l
    | false => runSortDirect keyf lessVal b l

/-- Fixture for C2: a two-element collection whose elements are their own
keys, 1 and 2, compared by the usual order on Nat. -/
def wC2 : Collection Nat Nat :=
  { elems := [1, 2], keyf := fun a => a, lessVal := fun x y => decide (x < y) }

/-- Fixture for C2: reverse-then-insertion sort for two elements — Swap(0,1),
then compare positions (1,0) and swap them when Less holds.  A correct,
deterministic comparison sort of two-element collections. -/
def pC2 : SortProg :=
  SortProg.swap 0 1 (SortProg.cmp 1 0 (SortProg.swap 1 0 SortProg.done) SortProg.done)

/-- Claim C2 fails on the code: running the deterministic two-element
sort pC2 through the adapter leaves the wrapped collection as [2, 1]
(unsorted), while running the same program directly with the unmemoized
comparator over the same keys leaves [1, 2].  The adapter memoizes the wrong
element's key: Key(i) calls wrapped.Key(swaps[i]), an original index read
against the already-swapped element slice. -/
theorem C2_adapter_differs_from_direct :
    (runSort pC2 (KeysortBasic.Keysort wC2)).wrapped.elems = [2, 1] ∧
    runSortDirect wC2.keyf wC2.lessVal pC2 wC2.elems = [1, 2] ∧
    ([2, 1] : List Nat) ≠ [1, 2] := by
  refine ⟨rfl, rfl, by decide⟩

/-- Fixture for C6: the spec scenario — two elements whose keys are [5, 3]. -/
def wC6 : Collection Nat Nat :=
  { elems := [5, 3], keyf := fun a => a, lessVal := fun x y => decide (x < y) }

/-- Claim C6 fails on the code: the permutation map is indeed initialized
to the identity and Swap(0,1) exchanges its entries while forwarding the swap
to the wrapped collection; but resolving position 0 after the swap returns 5
— the key originally associated with index 0 — not 3 as the claim (and the
Key doc comment, "the element that is currently at index i") requires,
because Key(0) calls wrapped.Key(swaps[0]) = wrapped.Key(1) against the
already-swapped element slice, where index 1 now holds the element with
key 5. -/
theorem C6_swap_then_resolve_returns_wrong_key :
    (KeysortBasic.Keysort wC6).swaps = [0, 1] ∧
    (KeysortBasic.Swap (KeysortBasic.Keysort wC6) 0 1).swaps = [1, 0] ∧
    (KeysortBasic.Swap (KeysortBasic.Keysort wC6) 0 1).wrapped.elems = [3, 5] ∧
    (KeysortBasic.Key (KeysortBasic.Swap (KeysortBasic.Keysort wC6) 0 1) 0).1 = 5 ∧
    (5 : Nat) ≠ 3 := by
  refine ⟨rfl, rfl, rfl, rfl, by decide⟩

/-- Fixture for the error-aware claims: a one-element collection whose key
function always fails (returns the value together with an error). -/
def wC1 : CollectionE Nat Nat :=
  { elems := [7], keyf := fun a => (a, some "boom"), lessVal := fun x y => decide (x < y) }

/-- The state after resolving position 0 of wC1 once: the memo map holds the
sentinel entry (0, 7) and the errors map holds (0, "boom"). -/
def ksC1 : KeysortErr.keySortable Nat Nat :=
  (KeysortErr.Key (KeysortErr.Keysort wC1) 0).2.1

/-- Claim C1 fails on the code: with identity 0 holding a recorded error,
RetryFailed(2) clears the errors map but re-invokes the user key function for
no identity at all: its invocation log is empty, although the claim requires
it to be exactly the previously-failing identities, here {0}.  The generator
erroredIndexes runs only after ClearErrors has emptied the errors map (and
would emit slice positions rather than the collected identities even if it
ran before; Key would skip the memoized sentinel in any case). -/
theorem C1_retryFailed_reinvokes_nothing :
    ksC1.errors = [(0, "boom")] ∧
    (KeysortErr.RetryFailed ksC1 2).2 = [] ∧
    (KeysortErr.RetryFailed ksC1 2).1.errors = [] := by
  refine ⟨rfl, rfl, rfl⟩

/-- Fixture for the basic-variant claims: a two-element collection with keys
4 and 6. -/
def wC3 : Collection Nat Nat :=
  { elems := [4, 6], keyf := fun a => a, lessVal := fun x y => decide (x < y) }

/-- The basic-variant state after resolving position 0 of wC3: memo holds
(0, 4). -/
def ksC3 : KeysortBasic.keySortable Nat Nat :=
  (KeysortBasic.Key (KeysortBasic.Keysort wC3) 0).2.1

/-- Fixture: an error-aware collection whose key function never fails. -/
def wOk : CollectionE Nat Nat :=
  { elems := [4, 6], keyf := fun a => (a, none), lessVal := fun x y => decide (x < y) }

/-- The error-aware state after resolving position 0 of wOk: memo holds
(0, 4), errors is empty. -/
def ksOk : KeysortErr.keySortable Nat Nat :=
  (KeysortErr.Key (KeysortErr.Keysort wOk) 0).2.1

/-- Claim C3: in a sequential execution, once an identity o has a cached key
(in either variant), resolving it again returns the cached key directly with
unchanged state and an empty invocation log, and no later sequence of
Key/Less/Swap calls ever invokes the user key function for o again — o never
appears in any later invocation log, however many times Less references
it. -/
theorem C3_cached_key_not_recomputed {α κ : Type} [Inhabited α] [Inhabited κ]
    (ks : KeysortBasic.keySortable α κ) (ksE : KeysortErr.keySortable α κ)
    (o : Nat) (v vE : κ)
    (h : mlookup ks.memo o = some v) (hE : mlookup ksE.memo o = some vE) :
    (∀ i, ks.swaps.getD i 0 = o → KeysortBasic.Key ks i = (v, ks, [])) ∧
    (∀ ops, o ∉ (KeysortBasic.runOps ks ops).2) ∧
    (∀ i, ksE.swaps.getD i 0 = o → KeysortErr.Key ksE i = (vE, ksE, [])) ∧
    (∀ ops, o ∉ (KeysortErr.runOps ksE ops).2) := by
  refine ⟨?_, ?_, ?_, ?_⟩
  · intro i hi
    exact Key_cached ks i v (by rw [hi]; exact h)
  · intro ops
    exact (runOps_persist_avoid o v ops ks h).2
  · intro i hi
    exact KeyE_cached ksE i vE (by rw [hi]; exact hE)
  · intro ops
    exact (runOpsE_persist_avoid o vE ops ksE hE).2

theorem C3_witness :
    KeysortBasic.Key ksC3 0 = (4, ksC3, []) ∧
    (0 : Nat) ∉ (KeysortBasic.runOps ksC3 [KeysortBasic.Op.less 0 1, KeysortBasic.Op.swap 0 1, KeysortBasic.Op.key 1]).2 ∧
    KeysortErr.Key ksOk 0 = (4, ksOk, []) ∧
    (0 : Nat) ∉ (KeysortErr.runOps ksOk [KeysortErr.Op.less 0 1, KeysortErr.Op.swap 0 1, KeysortErr.Op.key 1]).2 := by
  have h := C3_cached_key_not_recomputed ksC3 ksOk 0 4 4 (by decide) (by decide)
  exact ⟨h.1 0 (by decide), h.2.1 _, h.2.2.1 0 (by decide), h.2.2.2 _⟩

/-- Claim C4: in the error-aware variant, whenever the errors map is
non-empty after Less has resolved the keys for i and j, Less(i, j) returns
false regardless of the key values; and starting from any state satisfying
the reachable-state invariant ErrInv with a non-empty errors map, every
further Less returns false after any sequence of sort-facing calls
(Key/Less/Swap) — only ClearErrors or RetryFailed (not in that set) can
empty the error set. -/
theorem C4_less_false_on_errors {α κ : Type} [Inhabited α] [Inhabited κ]
    (ks : KeysortErr.keySortable α κ) (hinv : ErrInv ks) :
    (∀ i j, (KeysortErr.Less ks i j).2.1.errors ≠ [] → (KeysortErr.Less ks i j).1 = false) ∧
    (ks.errors ≠ [] →
      ∀ ops, (∀ op ∈ ops, KeysortErr.sortOp op = true) →
        ∀ i j, (KeysortErr.Less (KeysortErr.runOps ks ops).1 i j).1 = false) := by
  refine ⟨fun i j h => LessE_false_of_errors ks i j h, ?_⟩
  intro h ops hops i j
  have hr := runOpsE_sort_preserves ops ks hops hinv h
  exact LessE_false_of_errors _ i j (LessE_errors_nonempty _ i j hr.1 hr.2)

theorem C4_witness :
    (KeysortErr.Less ksC1 0 0).1 = false ∧
    (KeysortErr.Less (KeysortErr.runOps ksC1 [KeysortErr.Op.swap 0 0, KeysortErr.Op.key 0]).1 0 0).1 = false := by
  have h := C4_less_false_on_errors ksC1 (by unfold ErrInv; decide)
  exact ⟨h.1 0 0 (by decide), h.2 (by decide) _ (by decide) 0 0⟩

/-- A finite sequence of Swap(i, j) calls applied to a basic-variant adapter. -/
def applySwapPairs {α κ : Type} (ks : KeysortBasic.keySortable α κ)
    (ps : List (Nat × Nat)) : KeysortBasic.keySortable α κ :=
  ps.foldl (fun s p => KeysortBasic.Swap s p.1 p.2) ks

/-- A finite sequence of Swap(i, j) calls applied to an error-aware adapter. -/
def applySwapPairsE {α κ : Type} (ks : KeysortErr.keySortable α κ)
    (ps : List (Nat × Nat)) : KeysortErr.keySortable α κ :=
  ps.foldl (fun s p => KeysortErr.Swap s p.1 p.2) ks

theorem applySwapPairs_swaps_perm {α κ : Type} :
    ∀ (ps : List (Nat × Nat)) (ks : KeysortBasic.keySortable α κ),
      List.Perm (applySwapPairs ks ps).swaps ks.swaps := by
  intro ps
  induction ps with
  | nil => intro ks; exact List.Perm.refl _
  | cons p t ih =>
    intro ks
    exact List.Perm.trans (ih (KeysortBasic.Swap ks p.1 p.2))
      (listSwap_perm ks.swaps p.1 p.2)

theorem applySwapPairsE_swaps_perm {α κ : Type} :
    ∀ (ps : List (Nat × Nat)) (ks : KeysortErr.keySortable α κ),
      List.Perm (applySwapPairsE ks ps).swaps ks.swaps := by
  intro ps
  induction ps with
  | nil => intro ks; exact List.Perm.refl _
  | cons p t ih =>
    intro ks
    exact List.Perm.trans (ih (KeysortErr.Swap ks p.1 p.2))
      (listSwap_perm ks.swaps p.1 p.2)

/-- Claim C5: for an adapter built over a collection of size n (either
variant) and any finite sequence of in-range Swap(i, j) calls, the swaps
slice stays a permutation of [0, ..., n-1] — the formalization of "the
permutation map remains a bijection on [0, n)" (this holds after each call
since every prefix of the sequence is itself such a sequence). -/
theorem C5_permutation_map_bijection {α κ : Type} (w : Collection α κ)
    (wE : CollectionE α κ) (ps psE : List (Nat × Nat))
    (hps : ∀ p ∈ ps, p.1 < w.elems.length ∧ p.2 < w.elems.length)
    (hpsE : ∀ p ∈ psE, p.1 < wE.elems.length ∧ p.2 < wE.elems.length) :
    List.Perm (applySwapPairs (KeysortBasic.Keysort w) ps).swaps
      (List.range w.elems.length) ∧
    List.Perm (applySwapPairsE (KeysortErr.Keysort wE) psE).swaps
      (List.range wE.elems.length) :=
  ⟨applySwapPairs_swaps_perm ps (KeysortBasic.Keysort w),
    applySwapPairsE_swaps_perm psE (KeysortErr.Keysort wE)⟩

theorem C5_witness :
    List.Perm (applySwapPairs (KeysortBasic.Keysort wC3) [(0, 1), (1, 0), (0, 0)]).swaps
      (List.range 2) ∧
    List.Perm (applySwapPairsE (KeysortErr.Keysort wOk) [(0, 1), (1, 1)]).swaps
      (List.range 2) :=
  C5_permutation_map_bijection wC3 wOk [(0, 1), (1, 0), (0, 0)] [(0, 1), (1, 1)]
    (by decide) (by decide)

/-- Claim C7: in the error-aware variant a memo entry, once present
(including the sentinel cached for a failed identity), is never removed or
replaced by any operation (Key, Less, Swap, ClearErrors, RetryFailed or a
priming pass); a Key call for a cached identity returns the cached entry
with unchanged state and an empty invocation log; and a memoize pass over
indexes whose identities are all cached (as a retry pass over previously
failed — hence sentinel-cached — identities is) leaves the state unchanged
and invokes the user key function for nothing. -/
theorem C7_memo_entries_immutable {α κ : Type} [Inhabited α] [Inhabited κ]
    (ks : KeysortErr.keySortable α κ) (o : Nat) (v : κ)
    (h : mlookup ks.memo o = some v) :
    (∀ op, mlookup (KeysortErr.applyOp ks op).1.memo o = some v) ∧
    (∀ i, ks.swaps.getD i 0 = o → KeysortErr.Key ks i = (v, ks, [])) ∧
    (∀ idxs p, (∀ i ∈ idxs, (mlookup ks.memo (ks.swaps.getD i 0)).isSome) →
      KeysortErr.memoize ks p idxs = (ks, [])) := by
  refine ⟨?_, ?_, ?_⟩
  · intro op
    exact (applyOpE_persist_avoid ks op o v h).1
  · intro i hi
    exact KeyE_cached ks i v (by rw [hi]; exact h)
  · intro idxs p hall
    exact memoize_cached_all idxs ks p hall

theorem C7_witness :
    mlookup (KeysortErr.applyOp ksC1 (KeysortErr.Op.retryFailed 3)).1.memo 0 = some 7 ∧
    KeysortErr.Key ksC1 0 = (7, ksC1, []) ∧
    KeysortErr.memoize ksC1 1 [0] = (ksC1, []) := by
  have h := C7_memo_entries_immutable ksC1 0 7 (by decide)
  exact ⟨h.1 (KeysortErr.Op.retryFailed 3), h.2.1 0 (by decide), h.2.2 [0] 1 (by decide)⟩

/-- Claim C8: ClearErrors() empties the errors map and changes nothing else —
the memo map, the swaps slice and the wrapped collection are exactly as
before the call. -/
theorem C8_clearErrors_frame {α κ : Type} (ks : KeysortErr.keySortable α κ) :
    (KeysortErr.ClearErrors ks).errors = [] ∧
    (KeysortErr.ClearErrors ks).memo = ks.memo ∧
    (KeysortErr.ClearErrors ks).swaps = ks.swaps ∧
    (KeysortErr.ClearErrors ks).wrapped = ks.wrapped :=
  ⟨rfl, rfl, rfl, rfl⟩

/-- Claim C9: Errors() returns nil exactly when the errors map is empty (no
identity holds a recorded error); otherwise it returns a PrimingError whose
contents are exactly the errors map — each failing identity paired with its
error message (order is irrelevant: it is the whole map). -/
theorem C9_errors_aggregate {α κ : Type} (ks : KeysortErr.keySortable α κ) :
    (KeysortErr.Errors ks = none ↔ ks.errors = []) ∧
    (ks.errors ≠ [] → KeysortErr.Errors ks = some { Errors := ks.errors }) := by
  constructor
  · unfold KeysortErr.Errors
    by_cases h : ks.errors.length = 0
    · rw [if_pos h]
      simp only [true_iff]
      exact List.length_eq_zero.mp h
    · rw [if_neg h]
      constructor
      · intro hc; cases hc
      · intro hc
        exact absurd (by rw [hc]; rfl) h
  · intro h
    unfold KeysortErr.Errors
    rw [if_neg (by simpa [List.length_eq_zero] using h)]

theorem C9_witness :
    KeysortErr.Errors (KeysortErr.Keysort wC1) = none ∧
    KeysortErr.Errors ksC1 = some { Errors := [(0, "boom")] } :=
  ⟨(C9_errors_aggregate (KeysortErr.Keysort wC1)).1.mpr rfl,
    (C9_errors_aggregate ksC1).2 (by decide)⟩

/-- Claim C10: on the permutation map (the swaps slice), for in-range i, j in
either variant: Swap(i, j) twice restores the map, Swap(i, i) leaves it
unchanged, and Swap(i, j) has the same effect as Swap(j, i). -/
theorem C10_swap_algebra {α κ : Type} (ks : KeysortBasic.keySortable α κ)
    (ksE : KeysortErr.keySortable α κ) (i j : Nat)
    (hi : i < ks.swaps.length) (hj : j < ks.swaps.length)
    (hiE : i < ksE.swaps.length) (hjE : j < ksE.swaps.length) :
    (KeysortBasic.Swap (KeysortBasic.Swap ks i j) i j).swaps = ks.swaps ∧
    (KeysortBasic.Swap ks i i).swaps = ks.swaps ∧
    (KeysortBasic.Swap ks i j).swaps = (KeysortBasic.Swap ks j i).swaps ∧
    (KeysortErr.Swap (KeysortErr.Swap ksE i j) i j).swaps = ksE.swaps ∧
    (KeysortErr.Swap ksE i i).swaps = ksE.swaps ∧
    (KeysortErr.Swap ksE i j).swaps = (KeysortErr.Swap ksE j i).swaps :=
  ⟨listSwap_invol ks.swaps i j hi hj, listSwap_same ks.swaps i,
    listSwap_comm ks.swaps i j,
    listSwap_invol ksE.swaps i j hiE hjE, listSwap_same ksE.swaps i,
    listSwap_comm ksE.swaps i j⟩

theorem C10_witness :
    (KeysortBasic.Swap (KeysortBasic.Swap ksC3 0 1) 0 1).swaps = ksC3.swaps ∧
    (KeysortBasic.Swap ksC3 0 0).swaps = ksC3.swaps ∧
    (KeysortBasic.Swap ksC3 0 1).swaps = (KeysortBasic.Swap ksC3 1 0).swaps ∧
    (KeysortErr.Swap (KeysortErr.Swap ksOk 0 1) 0 1).swaps = ksOk.swaps ∧
    (KeysortErr.Swap ksOk 0 0).swaps = ksOk.swaps ∧
    (KeysortErr.Swap ksOk 0 1).swaps = (KeysortErr.Swap ksOk 1 0).swaps :=
  C10_swap_algebra ksC3 ksOk 0 1 (by decide) (by decide) (by decide) (by decide)
